import Mathlib

/-!
Verification of the asynq processor core (processor.go) and client option
composition against its natural-language specification.

The Go code is shallowly embedded: pure functions become Lean functions,
the worker goroutine body becomes a function of the event that resolves its
`select`, and the shutdown protocol becomes explicit state passing on a
record of the processor's channels/once-guard. Machine integers that stay
non-negative in all considered runs (retry counts, queue weights) are
modelled as `Nat`; times and durations are modelled as `Int` (nanoseconds).
-/

namespace Asynq

/-- Embedding of `base.TaskMessage`. The `timeout` and `deadline` fields are
strings parsed at use-sites (`time.ParseDuration`, `time.Parse(RFC3339)`);
here the two fields carry the parse result directly: `none` models a parse
error, `some v` a successful parse (`v = 0` models the zero duration /
`time.Time` zero value for which `IsZero()` is true). -/
structure TaskMessage where
  id : String
  type : String
  payload : List (String × String)
  queue : String
  retry : Nat
  retried : Nat
  timeoutParsed : Option Int
  deadlineParsed : Option Int
  errorMsg : String
deriving DecidableEq, Repr

/-- Embedding of `Task` (type plus opaque payload). -/
structure Task where
  type : String
  payload : List (String × String)
deriving DecidableEq, Repr

/-- Embedding of `NewTask`. -/
def NewTask (t : String) (p : List (String × String)) : Task := ⟨t, p⟩

/-- The broker state transitions the processor can request for a message
(rdb.Done / rdb.Requeue / rdb.Retry / rdb.Kill). `retryAt` is the absolute
time (ns) passed to `rdb.Retry`; `errMsg` is `e.Error()`. -/
inductive BrokerCall
  | done (id : String)
  | requeue (id : String)
  | retryCall (id : String) (retryAt : Int) (errMsg : String)
  | kill (id : String) (errMsg : String)
deriving DecidableEq, Repr

/-- Embedding of the error branch of the worker body in `exec`
(processor.go lines 201-213) together with `p.retry` and `p.kill`:
if `msg.Retried >= msg.Retry` the processor calls `p.kill(msg, resErr)`
(which invokes `rdb.Kill(msg, e.Error())`); otherwise `p.retry(msg, resErr)`
computes `d := p.retryDelayFunc(msg.Retried, e, NewTask(msg.Type, msg.Payload))`
and invokes `rdb.Retry(msg, time.Now().Add(d), e.Error())`. -/
def handleFailure (rdf : Nat → String → Task → Int) (now : Int)
    (msg : TaskMessage) (errMsg : String) : BrokerCall :=
  if msg.retried ≥ msg.retry then
    BrokerCall.kill msg.id errMsg
  else
    BrokerCall.retryCall msg.id
      (now + rdf msg.retried errMsg (NewTask msg.type msg.payload)) errMsg

/-- Lifecycle phase of a message with respect to the dead set. -/
inductive MsgPhase
  | active (retried : Nat)
  | dead
deriving DecidableEq, Repr

/-- One failed attempt of a message whose max retry count is `retry`.
The branch condition is the processor's decision in `exec`
(processor.go line 205: `if msg.Retried >= msg.Retry`). The increment on
the retry branch is Modelled from the spec: the broker's `Retry` operation
(implemented in internal/rdb, outside src/) "Increments `retried`" (§4.2),
and `Kill` moves the message into the dead set. -/
def failStep (retry : Nat) : MsgPhase → MsgPhase
  | MsgPhase.active r => if r ≥ retry then MsgPhase.dead else MsgPhase.active (r + 1)
  | MsgPhase.dead => MsgPhase.dead

/-- Phase of a fresh message (retried = 0, max retries `retry`) after `n`
failed attempts. -/
def iterFail (retry : Nat) : Nat → MsgPhase
  | 0 => MsgPhase.active 0
  | n + 1 => failStep retry (iterFail retry n)

/-- Observable effects of one worker goroutine spawned by `exec`
(processor.go lines 176-214). -/
structure WorkerEffects where
  brokerCalls : List BrokerCall
  deletedWorkerStats : Bool
  releasedToken : Bool
  deletedCancelation : Bool
  errHandlerCalled : Bool
deriving DecidableEq, Repr

/-- Which arm of the worker's `select` fires first: the forced-quit channel
`p.quit`, or the handler result arriving on `resCh` (`none` = nil error). -/
inductive WorkerEvent
  | quitSignal
  | handlerDone (res : Option String)
deriving DecidableEq, Repr

/-- Embedding of the worker goroutine body in `exec` (processor.go lines
176-214). The deferred function always deletes the message's worker stats
from ProcessState and releases the semaphore token. On `<-p.quit` the
goroutine returns at once with no broker call (the cancelation-registry
entry is removed only by the still-running inner goroutine, so it is not
removed on this path). On a handler result: nil error leads to
`p.markAsDone` (rdb.Done); a non-nil error first invokes the optional
ErrorHandler and then `p.kill`/`p.retry` per `handleFailure`. -/
def runWorker (rdf : Nat → String → Task → Int) (now : Int)
    (msg : TaskMessage) (ev : WorkerEvent) : WorkerEffects :=
  match ev with
  | WorkerEvent.quitSignal =>
      { brokerCalls := []
        deletedWorkerStats := true
        releasedToken := true
        deletedCancelation := false
        errHandlerCalled := false }
  | WorkerEvent.handlerDone none =>
      { brokerCalls := [BrokerCall.done msg.id]
        deletedWorkerStats := true
        releasedToken := true
        deletedCancelation := true
        errHandlerCalled := false }
  | WorkerEvent.handlerDone (some e) =>
      { brokerCalls := [handleFailure rdf now msg e]
        deletedWorkerStats := true
        releasedToken := true
        deletedCancelation := true
        errHandlerCalled := true }

/-- Outcome of running the user handler inside `perform`: either the handler
returns an error value (`none` = nil error), or it panics. The panic payload
is recorded as the value `recover()` observes: `some v` for `panic(v)` with a
non-nil stringified value `v`, and `none` for `panic(nil)` (in the Go version
of this code, `recover()` returns nil for a nil panic value while still
stopping the unwinding). -/
inductive HandlerOutcome
  | returns (err : Option String)
  | panics (recovered : Option String)
deriving DecidableEq, Repr

/-- Embedding of `perform` (processor.go lines 312-319). The deferred
function runs `if x := recover(); x != nil { err = fmt.Errorf("panic: %v", x) }`:
a non-nil recovered value is converted to the error string "panic: v";
a nil recovered value (i.e. `panic(nil)`) leaves the named return `err` at
its zero value nil; a normal return passes the handler's result through. -/
def perform (h : HandlerOutcome) : Option String :=
  match h with
  | HandlerOutcome.returns e => e
  | HandlerOutcome.panics (some v) => some ("panic: " ++ v)
  | HandlerOutcome.panics none => none

/-- Helper: after `n` failures a fresh message with max retry `K` is still
active with `retried = n` while `n ≤ K`, and dead afterwards. -/
theorem iterFail_eq (K : Nat) : ∀ n : Nat,
    iterFail K n = if n ≤ K then MsgPhase.active n else MsgPhase.dead := by
  intro n
  induction n with
  | zero => simp [iterFail]
  | succ n ih =>
      rw [iterFail, ih]
      by_cases h : n ≤ K
      · rcases Nat.lt_or_ge n K with h' | h'
        · simp [failStep, h, Nat.not_le.mpr h', Nat.succ_le_of_lt h']
        · have hk : n = K := Nat.le_antisymm h h'
          subst hk
          simp [failStep]
      · have h' : ¬ n + 1 ≤ K := fun hn => h (Nat.le_of_succ_le hn)
        simp [failStep, h, h']

/-- C1: a worker whose handler returns a non-nil error makes the processor
call Kill when `msg.Retried >= msg.Retry` and otherwise Retry with
`retryAt = now + retryDelayFunc(msg.Retried, err, task)`; consequently a
fresh message with max retry `K` is in the dead set after `n` failures
exactly when `n ≥ K + 1` (it reaches dead on the (K+1)-th failure and never
earlier). -/
theorem exec_retry_or_kill (rdf : Nat → String → Task → Int) (now : Int)
    (msg : TaskMessage) (e : String) (K n : Nat) :
    (msg.retried ≥ msg.retry → handleFailure rdf now msg e = BrokerCall.kill msg.id e)
    ∧ (msg.retried < msg.retry →
        handleFailure rdf now msg e = BrokerCall.retryCall msg.id
          (now + rdf msg.retried e (NewTask msg.type msg.payload)) e)
    ∧ (iterFail K n = MsgPhase.dead ↔ K + 1 ≤ n) := by
  refine ⟨?_, ?_, ?_⟩
  · intro h
    simp [handleFailure, h]
  · intro h
    simp [handleFailure, Nat.not_le.mpr h]
  · rw [iterFail_eq]
    by_cases h : n ≤ K
    · simp only [h, if_true]
      constructor
      · intro hc
        exact absurd hc (by simp)
      · omega
    · simp only [h, if_false]
      constructor
      · intro _
        omega
      · intro _
        trivial

/-- Witness for C1 at a concrete message: retried = retry = 2 leads to Kill,
and with K = 2 the message is dead exactly after 3 failures, not after 2. -/
theorem exec_retry_or_kill_witness :
    handleFailure (fun _ _ _ => (7 : Int)) 100
      ⟨"id1", "email", [], "default", 2, 2, none, none, ""⟩ "boom"
      = BrokerCall.kill "id1" "boom"
    ∧ iterFail 2 3 = MsgPhase.dead := by
  refine ⟨?_, ?_⟩
  · exact (exec_retry_or_kill (fun _ _ _ => (7 : Int)) 100
      ⟨"id1", "email", [], "default", 2, 2, none, none, ""⟩ "boom" 2 3).1 (by decide)
  · exact (exec_retry_or_kill (fun _ _ _ => (7 : Int)) 100
      ⟨"id1", "email", [], "default", 2, 2, none, none, ""⟩ "boom" 2 3).2.2.mpr (by decide)

/-- C3: a worker that observes the forced-quit signal before its handler
completes returns with no broker state transition (no Done, Retry, Kill or
Requeue), while its deferred function still deletes the message's worker
stats from ProcessState and releases the admission token. -/
theorem quit_abandons_without_broker_calls (rdf : Nat → String → Task → Int)
    (now : Int) (msg : TaskMessage) :
    (runWorker rdf now msg WorkerEvent.quitSignal).brokerCalls = []
    ∧ (runWorker rdf now msg WorkerEvent.quitSignal).deletedWorkerStats = true
    ∧ (runWorker rdf now msg WorkerEvent.quitSignal).releasedToken = true := by
  exact ⟨rfl, rfl, rfl⟩

/-- Counterexample for C8: a handler that panics with a nil payload is
recovered (the `x != nil` guard fails), and `perform` returns a nil error,
not a non-nil error with message "panic: v". -/
theorem perform_nil_panic_counterexample :
    perform (HandlerOutcome.panics none) = none := rfl

/-- C8 (amended): `perform` never propagates a panic; a handler panic with a
non-nil value `v` yields exactly the error "panic: v"; a normal return is
passed through unchanged, so a nil return means success; but a panic with a
nil payload is silently recovered and `perform` returns nil (success). -/
theorem perform_spec :
    ∀ (e : Option String) (v : String),
      perform (HandlerOutcome.returns e) = e
      ∧ perform (HandlerOutcome.panics (some v)) = some ("panic: " ++ v)
      ∧ perform (HandlerOutcome.panics none) = none := by
  intro e v
  exact ⟨rfl, rfl, rfl⟩

/-- Modelled from the documented semantics of Go's `context.WithDeadline`
(the standard library this code calls): a context is represented by its
effective deadline (`none` = no deadline), and the child's deadline is the
parent's deadline "adjusted to be no later than d" — if the parent's
deadline is already earlier than `d`, the parent's deadline is kept. -/
def withDeadline (parent : Option Int) (d : Int) : Option Int :=
  match parent with
  | none => some d
  | some pd => if pd ≤ d then some pd else some d

/-- Modelled from Go's `context.WithTimeout(parent, t)`, which is defined as
`WithDeadline(parent, time.Now().Add(t))`. -/
def withTimeout (parent : Option Int) (now t : Int) : Option Int :=
  withDeadline parent (now + t)

/-- Embedding of `createContext` (processor.go lines 397-411), returning the
effective deadline of the context handed to the handler. Starting from
`context.Background()` (no deadline): if `msg.Timeout` parses to a non-zero
duration, wrap with `WithTimeout`; then, if `msg.Deadline` parses to a
non-zero time, wrap with `WithDeadline`. (The final `WithCancel` branch
taken when neither applied adds cancelability but no deadline.) -/
def createContext (msg : TaskMessage) (now : Int) : Option Int :=
  let ctx0 : Option Int := none
  let ctx1 :=
    match msg.timeoutParsed with
    | some t => if t ≠ 0 then withTimeout ctx0 now t else ctx0
    | none => ctx0
  match msg.deadlineParsed with
  | some d => if d ≠ 0 then withDeadline ctx1 d else ctx1
  | none => ctx1

/-- Counterexample for C2: at now = 0, with a timeout of 5 ns and a deadline
at t = 10 ns (both non-zero and parsed), the context's effective deadline is
5 (the timeout bound), not 10 (the deadline) — `WithDeadline` never extends
the parent's deadline, so the deadline does not override the timeout. -/
theorem createContext_counterexample :
    createContext ⟨"id2", "email", [], "default", 25, 0, some 5, some 10, ""⟩ 0 = some 5
    ∧ createContext ⟨"id2", "email", [], "default", 25, 0, some 5, some 10, ""⟩ 0 ≠ some 10 := by
  refine ⟨rfl, ?_⟩
  intro h
  simp [createContext, withTimeout, withDeadline] at h

/-- C2 (amended): for a message whose timeout parses to a non-zero duration
and whose deadline parses to a non-zero time, the effective cancellation
bound of the context built by `createContext` is the earlier of
`now + timeout` and the deadline, because `context.WithDeadline` adjusts the
deadline to be no later than its parent's. -/
theorem createContext_both_bounds (msg : TaskMessage) (now t d : Int)
    (ht : msg.timeoutParsed = some t) (hd : msg.deadlineParsed = some d)
    (ht0 : t ≠ 0) (hd0 : d ≠ 0) :
    createContext msg now = some (min (now + t) d) := by
  simp only [createContext, withTimeout, withDeadline, ht, hd, ht0, hd0,
    if_true, ne_eq, not_false_iff, ite_true]
  by_cases h : now + t ≤ d
  · simp [h, min_eq_left h]
  · simp [h, min_eq_right (le_of_not_le h)]

/-- Witness for C2 (amended): timeout 5 ns, deadline 10 ns, now 0. -/
theorem createContext_both_bounds_witness :
    createContext ⟨"id3", "email", [], "default", 25, 0, some 5, some 10, ""⟩ 0
      = some (min ((0 : Int) + 5) 10) :=
  createContext_both_bounds ⟨"id3", "email", [], "default", 25, 0, some 5, some 10, ""⟩
    0 5 10 rfl rfl (by decide) (by decide)

/-- Embedding of the multiset-building loop of `queues` (processor.go lines
298-303): each queue name is appended `priority` times. The queue
configuration is an association list with distinct keys (a Go map); map
iteration order is arbitrary in Go, which is absorbed by quantifying over
an arbitrary permutation of this list at use sites. -/
def weightedNames (cfg : List (String × Nat)) : List String :=
  cfg.flatMap (fun p => List.replicate p.2 p.1)

/-- Embedding of the loop of `uniq` (processor.go lines 323-336), with the
`seen` set inlined as membership in the accumulated result `res` (the Go
code keeps `seen` and `res` in lockstep): append `s` if unseen, then break
as soon as `res` has length `l`. -/
def uniqGo (l : Nat) : List String → List String → List String
  | [], res => res
  | s :: rest, res =>
    if s ∈ res then
      (if res.length = l then res else uniqGo l rest res)
    else
      (if (res ++ [s]).length = l then res ++ [s] else uniqGo l rest (res ++ [s]))

/-- Embedding of `uniq` (processor.go lines 321-336). -/
def uniq (names : List String) (l : Nat) : List String :=
  uniqGo l names []

/-- Embedding of `queues` (processor.go lines 287-307). The single-queue
fast path returns the sole name; strict-priority mode returns the
precomputed `orderedQueues`; otherwise the weighted multiset is shuffled
(`rand.Shuffle` with a wall-clock seed, abstracted as the function
`shuffle`, which produces a permutation of its input) and deduplicated by
`uniq` truncated at the number of configured queues. -/
def queues (queueConfig : List (String × Nat)) (orderedQueues : Option (List String))
    (shuffle : List String → List String) : List String :=
  match queueConfig with
  | [(qname, _)] => [qname]
  | _ =>
    match orderedQueues with
    | some oq => oq
    | none => uniq (shuffle (weightedNames queueConfig)) queueConfig.length

/-- Helper: a duplicate-free list included in a finite set of the same
cardinality enumerates that set. -/
theorem toFinset_eq_of_nodup_subset (res : List String) (D : Finset String)
    (hnd : res.Nodup) (hsub : ∀ x ∈ res, x ∈ D) (hlen : res.length = D.card) :
    res.toFinset = D := by
  apply Finset.eq_of_subset_of_card_le
  · intro x hx
    rw [List.mem_toFinset] at hx
    exact hsub x hx
  · rw [List.toFinset_card_of_nodup hnd, hlen]

/-- Helper invariant for the `uniq` loop: if the accumulator is
duplicate-free and inside the distinct-name set `D`, the remaining input is
inside `D`, every element of `D` is in the accumulator or in the remaining
input, and the truncation bound is `D.card`, then the loop returns a
duplicate-free enumeration of `D`. -/
theorem uniqGo_invariant (l : Nat) (D : Finset String) (hD : D.card = l) :
    ∀ (names res : List String), res.Nodup → (∀ x ∈ res, x ∈ D) →
      (∀ x ∈ names, x ∈ D) → (∀ x ∈ D, x ∈ res ∨ x ∈ names) →
      (uniqGo l names res).Nodup ∧ (uniqGo l names res).toFinset = D := by
  intro names
  induction names with
  | nil =>
      intro res hnd hsub _ hcov
      refine ⟨hnd, ?_⟩
      apply Finset.Subset.antisymm
      · intro x hx
        rw [List.mem_toFinset] at hx
        exact hsub x hx
      · intro x hx
        rcases hcov x hx with h | h
        · rw [List.mem_toFinset]
          exact h
        · exact absurd h (List.not_mem_nil x)
  | cons s rest ih =>
      intro res hnd hsub hnames hcov
      have hsD : s ∈ D := hnames s (List.mem_cons_self s rest)
      by_cases hs : s ∈ res
      · rw [uniqGo, if_pos hs]
        by_cases hl : res.length = l
        · rw [if_pos hl]
          exact ⟨hnd, toFinset_eq_of_nodup_subset res D hnd hsub (by rw [hl, hD])⟩
        · rw [if_neg hl]
          refine ih res hnd hsub (fun x hx => hnames x (List.mem_cons_of_mem s hx)) ?_
          intro x hx
          rcases hcov x hx with h | h
          · exact Or.inl h
          · rcases List.mem_cons.mp h with h' | h'
            · exact Or.inl (h' ▸ hs)
            · exact Or.inr h'
      · rw [uniqGo, if_neg hs]
        have hnd' : (res ++ [s]).Nodup := by
          rw [List.nodup_append]
          exact ⟨hnd, List.nodup_singleton s,
            by simpa [List.disjoint_singleton] using hs⟩
        have hsub' : ∀ x ∈ res ++ [s], x ∈ D := by
          intro x hx
          rcases List.mem_append.mp hx with h | h
          · exact hsub x h
          · rw [List.mem_singleton] at h
            exact h ▸ hsD
        by_cases hl : (res ++ [s]).length = l
        · rw [if_pos hl]
          exact ⟨hnd', toFinset_eq_of_nodup_subset (res ++ [s]) D hnd' hsub'
            (by rw [hl, hD])⟩
        · rw [if_neg hl]
          refine ih (res ++ [s]) hnd' hsub'
            (fun x hx => hnames x (List.mem_cons_of_mem s hx)) ?_
          intro x hx
          rcases hcov x hx with h | h
          · exact Or.inl (List.mem_append.mpr (Or.inl h))
          · rcases List.mem_cons.mp h with h' | h'
            · exact Or.inl (List.mem_append.mpr (Or.inr (by rw [List.mem_singleton, h'])))
            · exact Or.inr h'

/-- Helper: the weighted multiset and the distinct key list have the same
elements when every weight is positive. -/
theorem mem_weightedNames (cfg : List (String × Nat)) (hw : ∀ p ∈ cfg, 0 < p.2)
    (x : String) : x ∈ weightedNames cfg ↔ x ∈ cfg.map Prod.fst := by
  simp only [weightedNames, List.mem_flatMap, List.mem_replicate, List.mem_map]
  constructor
  · rintro ⟨p, hp, _, hx⟩
    exact ⟨p, hp, hx.symm⟩
  · rintro ⟨p, hp, hx⟩
    exact ⟨p, hp, Nat.pos_iff_ne_zero.mp (hw p hp), hx.symm⟩

/-- C4: with two or more configured queues, positive weights and strict
priority disabled, for every shuffle that permutes the weighted multiset
(i.e. for every random seed) the list returned by `queues` is duplicate
free, contains exactly the distinct configured queue names, has exactly one
entry per configured queue, and is non-empty. -/
theorem queues_weighted_permutation (cfg : List (String × Nat))
    (shuffle : List String → List String)
    (hkeys : (cfg.map Prod.fst).Nodup) (hw : ∀ p ∈ cfg, 0 < p.2)
    (hlen : 2 ≤ cfg.length)
    (hs : List.Perm (shuffle (weightedNames cfg)) (weightedNames cfg)) :
    (queues cfg none shuffle).Nodup
    ∧ (queues cfg none shuffle).toFinset = (cfg.map Prod.fst).toFinset
    ∧ (queues cfg none shuffle).length = cfg.length
    ∧ queues cfg none shuffle ≠ [] := by
  obtain ⟨p1, cfg1, rfl⟩ : ∃ p1 cfg1, cfg = p1 :: cfg1 := by
    cases cfg with
    | nil => simp at hlen
    | cons p1 cfg1 => exact ⟨p1, cfg1, rfl⟩
  obtain ⟨p2, cfg2, rfl⟩ : ∃ p2 cfg2, cfg1 = p2 :: cfg2 := by
    cases cfg1 with
    | nil => simp at hlen
    | cons p2 cfg2 => exact ⟨p2, cfg2, rfl⟩
  set cfg := p1 :: p2 :: cfg2 with hcfg
  have hq : queues cfg none shuffle = uniq (shuffle (weightedNames cfg)) cfg.length := rfl
  have hDcard : (cfg.map Prod.fst).toFinset.card = cfg.length := by
    rw [List.toFinset_card_of_nodup hkeys, List.length_map]
  have hmem : ∀ x ∈ shuffle (weightedNames cfg), x ∈ (cfg.map Prod.fst).toFinset := by
    intro x hx
    rw [List.mem_toFinset, ← mem_weightedNames cfg hw x]
    exact hs.mem_iff.mp hx
  have hcov : ∀ x ∈ (cfg.map Prod.fst).toFinset,
      x ∈ ([] : List String) ∨ x ∈ shuffle (weightedNames cfg) := by
    intro x hx
    right
    rw [List.mem_toFinset] at hx
    rw [hs.mem_iff, mem_weightedNames cfg hw x]
    exact hx
  have hmain := uniqGo_invariant cfg.length (cfg.map Prod.fst).toFinset hDcard
    (shuffle (weightedNames cfg)) [] List.nodup_nil (by intro x hx; cases hx)
    hmem hcov
  rw [hq]
  unfold uniq
  refine ⟨hmain.1, hmain.2, ?_, ?_⟩
  · rw [← List.toFinset_card_of_nodup hmain.1, hmain.2, hDcard]
  · intro hnil
    have : (uniqGo cfg.length (shuffle (weightedNames cfg)) []).toFinset = ∅ := by
      rw [hnil]
      rfl
    rw [hmain.2] at this
    have hp1 : p1.1 ∈ (cfg.map Prod.fst).toFinset := by
      rw [List.mem_toFinset]
      exact List.mem_map.mpr ⟨p1, List.mem_cons_self p1 _, rfl⟩
    rw [this] at hp1
    exact absurd hp1 (Finset.not_mem_empty p1.1)

/-- Witness for C4 at a concrete configuration {a ↦ 1, b ↦ 2} and the
reversing shuffle. -/
theorem queues_weighted_permutation_witness :
    (queues [("a", 1), ("b", 2)] none List.reverse).Nodup
    ∧ (queues [("a", 1), ("b", 2)] none List.reverse).toFinset
        = ([("a", 1), ("b", 2)].map Prod.fst).toFinset
    ∧ (queues [("a", 1), ("b", 2)] none List.reverse).length
        = [("a", 1), ("b", 2)].length
    ∧ queues [("a", 1), ("b", 2)] none List.reverse ≠ [] := by
  refine queues_weighted_permutation [("a", 1), ("b", 2)] List.reverse ?_ ?_ ?_ ?_
  · decide
  · decide
  · decide
  · exact (List.reverse_perm (weightedNames [("a", 1), ("b", 2)]))

/-- Embedding of the local closure `fn` inside `gcd` (processor.go lines
380-385): Euclid's loop `for y > 0 { x, y = y, x%y }; return x`. -/
def fnGcd (x y : Nat) : Nat :=
  if h : y = 0 then x else fnGcd y (x % y)
termination_by y
decreasing_by exact Nat.mod_lt x (Nat.pos_of_ne_zero h)

/-- Embedding of the accumulation loop of `gcd` (processor.go lines
386-393): starting from `res = xs[0]`, fold `fn` over every element,
returning 1 early as soon as the accumulator reaches 1. -/
def gcdLoop : List Nat → Nat → Nat
  | [], res => res
  | y :: rest, res =>
    if fnGcd y res = 1 then 1 else gcdLoop rest (fnGcd y res)

/-- Embedding of `gcd` (processor.go lines 379-394). The Go function reads
`xs[0]` unconditionally, so the empty argument list panics with an
index-out-of-range; that failure is modelled as `none`. -/
def gcdGo (xs : List Nat) : Option Nat :=
  match xs with
  | [] => none
  | x :: _ => some (gcdLoop xs x)

/-- Embedding of `normalizeQueueCfg` (processor.go lines 366-377): collect
the weights, divide each by their `gcd`. The propagated `none` records the
panic `gcd` raises on an empty configuration. -/
def normalizeQueueCfg (queueCfg : List (String × Nat)) : Option (List (String × Nat)) :=
  match gcdGo (queueCfg.map Prod.snd) with
  | none => none
  | some d => some (queueCfg.map (fun p => (p.1, p.2 / d)))

/-- The mathematical gcd of a list of naturals, used as the reference value
for the imperative `gcd` loop. -/
def gcdAll (l : List Nat) : Nat :=
  l.foldr Nat.gcd 0

/-- Helper: the inner Euclid loop computes the gcd of its two arguments. -/
theorem fnGcd_eq (x y : Nat) : fnGcd x y = Nat.gcd y x := by
  induction y using Nat.strong_induction_on generalizing x with
  | _ y ih =>
      by_cases h : y = 0
      · subst h
        rw [fnGcd]
        simp [Nat.gcd_zero_left]
      · rw [fnGcd, dif_neg h, ih (x % y) (Nat.mod_lt x (Nat.pos_of_ne_zero h)) y]
        exact (Nat.gcd_rec y x).symm

/-- Helper: the accumulation loop with early exit computes
`gcd res (gcdAll ys)`. -/
theorem gcdLoop_eq (ys : List Nat) : ∀ res : Nat,
    gcdLoop ys res = Nat.gcd res (gcdAll ys) := by
  induction ys with
  | nil =>
      intro res
      simp [gcdLoop, gcdAll, Nat.gcd_zero_right]
  | cons y rest ih =>
      intro res
      rw [gcdLoop, fnGcd_eq]
      by_cases h : Nat.gcd res y = 1
      · rw [if_pos h]
        have hcons : gcdAll (y :: rest) = Nat.gcd y (gcdAll rest) := rfl
        have hy : gcdAll (y :: rest) ∣ y := by
          rw [hcons]
          exact Nat.gcd_dvd_left y (gcdAll rest)
        have hdvd : Nat.gcd res (gcdAll (y :: rest)) ∣ Nat.gcd res y :=
          Nat.dvd_gcd (Nat.gcd_dvd_left _ _)
            (dvd_trans (Nat.gcd_dvd_right _ _) hy)
        rw [h] at hdvd
        exact (Nat.dvd_one.mp hdvd).symm
      · rw [if_neg h, ih]
        show Nat.gcd (Nat.gcd res y) (gcdAll rest) = Nat.gcd res (Nat.gcd y (gcdAll rest))
        rw [Nat.gcd_assoc]

/-- Helper: on a non-empty list, the Go `gcd` returns the mathematical gcd. -/
theorem gcdGo_eq (x : Nat) (rest : List Nat) :
    gcdGo (x :: rest) = some (gcdAll (x :: rest)) := by
  rw [gcdGo, gcdLoop_eq]
  show some (Nat.gcd x (Nat.gcd x (gcdAll rest))) = some (Nat.gcd x (gcdAll rest))
  rw [← Nat.gcd_assoc, Nat.gcd_self]

/-- Helper: the gcd of a non-empty list of positive naturals is positive. -/
theorem gcdAll_pos (l : List Nat) (hne : l ≠ []) (hw : ∀ w ∈ l, 0 < w) :
    0 < gcdAll l := by
  cases l with
  | nil => exact absurd rfl hne
  | cons x rest =>
      have hx : 0 < x := hw x (List.mem_cons_self x rest)
      show 0 < Nat.gcd x (gcdAll rest)
      exact Nat.gcd_pos_of_pos_left _ hx

/-- Helper: the gcd of a list divides every element. -/
theorem gcdAll_dvd (l : List Nat) : ∀ w ∈ l, gcdAll l ∣ w := by
  induction l with
  | nil => intro w hw; cases hw
  | cons x rest ih =>
      intro w hw
      rcases List.mem_cons.mp hw with h | h
      · exact h ▸ Nat.gcd_dvd_left x (gcdAll rest)
      · exact dvd_trans (Nat.gcd_dvd_right x (gcdAll rest)) (ih w h)

/-- Helper: dividing every element by a common divisor scales the gcd. -/
theorem gcdAll_div (l : List Nat) (g : Nat) (hd : ∀ w ∈ l, g ∣ w) :
    gcdAll (l.map (· / g)) * g = gcdAll l := by
  induction l with
  | nil => simp [gcdAll]
  | cons x rest ih =>
      have hx : g ∣ x := hd x (List.mem_cons_self x rest)
      have ih' := ih (fun w hw => hd w (List.mem_cons_of_mem x hw))
      show Nat.gcd (x / g) (gcdAll (rest.map (· / g))) * g
        = Nat.gcd x (gcdAll rest)
      rw [← Nat.gcd_mul_right, Nat.div_mul_cancel hx, ih']

/-- Helper: after division by the full gcd, the gcd of a non-empty positive
list is 1. -/
theorem gcdAll_div_self (l : List Nat) (hne : l ≠ []) (hw : ∀ w ∈ l, 0 < w) :
    gcdAll (l.map (· / gcdAll l)) = 1 := by
  have hpos := gcdAll_pos l hne hw
  have h := gcdAll_div l (gcdAll l) (gcdAll_dvd l)
  have h1 : gcdAll (l.map (· / gcdAll l)) * gcdAll l = 1 * gcdAll l := by
    rw [h, one_mul]
  exact Nat.eq_of_mul_eq_mul_right hpos h1

/-- C5: for a non-empty configuration of positive weights,
`normalizeQueueCfg` divides every weight by the gcd of all weights; the
normalized weights have gcd 1; and normalizing again is the identity
(`normalizeQueueCfg` is idempotent), so the processor's queue configuration
— and hence its selection behavior — is the same for W and for W/gcd(W). -/
theorem normalizeQueueCfg_spec (cfg : List (String × Nat)) (hne : cfg ≠ [])
    (hw : ∀ p ∈ cfg, 0 < p.2) :
    normalizeQueueCfg cfg
      = some (cfg.map (fun p => (p.1, p.2 / gcdAll (cfg.map Prod.snd))))
    ∧ gcdAll ((cfg.map (fun p => (p.1, p.2 / gcdAll (cfg.map Prod.snd)))).map Prod.snd) = 1
    ∧ normalizeQueueCfg (cfg.map (fun p => (p.1, p.2 / gcdAll (cfg.map Prod.snd))))
        = some (cfg.map (fun p => (p.1, p.2 / gcdAll (cfg.map Prod.snd)))) := by
  obtain ⟨p0, cfg0, rfl⟩ : ∃ p0 cfg0, cfg = p0 :: cfg0 := by
    cases cfg with
    | nil => exact absurd rfl hne
    | cons p0 cfg0 => exact ⟨p0, cfg0, rfl⟩
  set cfg := p0 :: cfg0 with hcfg
  have hwl : ∀ w ∈ cfg.map Prod.snd, 0 < w := by
    intro w hwmem
    rcases List.mem_map.mp hwmem with ⟨p, hp, rfl⟩
    exact hw p hp
  have hsnd : (cfg.map (fun p => (p.1, p.2 / gcdAll (cfg.map Prod.snd)))).map Prod.snd
      = (cfg.map Prod.snd).map (· / gcdAll (cfg.map Prod.snd)) := by
    simp [List.map_map, Function.comp]
  have hgcd1 : gcdAll ((cfg.map (fun p => (p.1, p.2 / gcdAll (cfg.map Prod.snd)))).map Prod.snd) = 1 := by
    rw [hsnd]
    exact gcdAll_div_self (cfg.map Prod.snd) (by simp [hcfg]) hwl
  have h1 : normalizeQueueCfg cfg
      = some (cfg.map (fun p => (p.1, p.2 / gcdAll (cfg.map Prod.snd)))) := by
    rw [normalizeQueueCfg]
    rw [show cfg.map Prod.snd = p0.2 :: cfg0.map Prod.snd by simp [hcfg]]
    rw [gcdGo_eq]
  refine ⟨h1, hgcd1, ?_⟩
  rw [normalizeQueueCfg]
  have hne2 : (cfg.map (fun p => (p.1, p.2 / gcdAll (cfg.map Prod.snd)))).map Prod.snd ≠ [] := by
    simp [hcfg]
  obtain ⟨w1, ws, hws⟩ : ∃ w1 ws,
      (cfg.map (fun p => (p.1, p.2 / gcdAll (cfg.map Prod.snd)))).map Prod.snd = w1 :: ws := by
    cases hmap : (cfg.map (fun p => (p.1, p.2 / gcdAll (cfg.map Prod.snd)))).map Prod.snd with
    | nil => exact absurd hmap hne2
    | cons w1 ws => exact ⟨w1, ws, rfl⟩
  rw [hws, gcdGo_eq, ← hws, hgcd1]
  simp

/-- Witness for C5 at the configuration {a ↦ 2, b ↦ 4}: gcd 2, normalized
to {a ↦ 1, b ↦ 2}, whose gcd is 1 and which normalizes to itself. -/
theorem normalizeQueueCfg_spec_witness :
    normalizeQueueCfg [("a", 2), ("b", 4)]
      = some ([("a", 2), ("b", 4)].map
          (fun p => (p.1, p.2 / gcdAll ([("a", 2), ("b", 4)].map Prod.snd))))
    ∧ gcdAll (([("a", 2), ("b", 4)].map
          (fun p => (p.1, p.2 / gcdAll ([("a", 2), ("b", 4)].map Prod.snd)))).map Prod.snd) = 1
    ∧ normalizeQueueCfg ([("a", 2), ("b", 4)].map
          (fun p => (p.1, p.2 / gcdAll ([("a", 2), ("b", 4)].map Prod.snd))))
        = some ([("a", 2), ("b", 4)].map
            (fun p => (p.1, p.2 / gcdAll ([("a", 2), ("b", 4)].map Prod.snd)))) :=
  normalizeQueueCfg_spec [("a", 2), ("b", 4)] (by decide) (by decide)

/-- C10: `gcd` unconditionally reads the first element of its argument, so
the empty weight list fails (modelled: `gcdGo [] = none`), and
`normalizeQueueCfg` — called by `newProcessor` on the configured queue map —
fails on the empty configuration; on every non-empty configuration of
positive weights it succeeds and returns a same-length configuration of
positive weights. -/
theorem normalizeQueueCfg_total_on_nonempty (cfg : List (String × Nat))
    (hne : cfg ≠ []) (hw : ∀ p ∈ cfg, 0 < p.2) :
    gcdGo [] = none
    ∧ normalizeQueueCfg [] = none
    ∧ ∃ res, normalizeQueueCfg cfg = some res ∧ res.length = cfg.length
        ∧ ∀ p ∈ res, 0 < p.2 := by
  refine ⟨rfl, rfl, ?_⟩
  have hwl : ∀ w ∈ cfg.map Prod.snd, 0 < w := by
    intro w hwmem
    rcases List.mem_map.mp hwmem with ⟨p, hp, rfl⟩
    exact hw p hp
  have hmaps : cfg.map Prod.snd ≠ [] := by
    intro h
    apply hne
    cases cfg with
    | nil => rfl
    | cons p0 cfg0 => simp at h
  have hgpos : 0 < gcdAll (cfg.map Prod.snd) := gcdAll_pos _ hmaps hwl
  refine ⟨cfg.map (fun p => (p.1, p.2 / gcdAll (cfg.map Prod.snd))),
    (normalizeQueueCfg_spec cfg hne hw).1, by rw [List.length_map], ?_⟩
  intro p hp
  rcases List.mem_map.mp hp with ⟨q, hq, rfl⟩
  show 0 < q.2 / gcdAll (cfg.map Prod.snd)
  apply Nat.div_pos ?_ hgpos
  exact Nat.le_of_dvd (hw q hq)
    (gcdAll_dvd (cfg.map Prod.snd) q.2 (List.mem_map.mpr ⟨q, hq, rfl⟩))

/-- Witness for C10 at the configuration {default ↦ 3}. -/
theorem normalizeQueueCfg_total_on_nonempty_witness :
    gcdGo [] = none
    ∧ normalizeQueueCfg [] = none
    ∧ ∃ res, normalizeQueueCfg [("default", 3)] = some res
        ∧ res.length = [("default", 3)].length ∧ ∀ p ∈ res, 0 < p.2 :=
  normalizeQueueCfg_total_on_nonempty [("default", 3)] (by decide) (by decide)

/-- Shutdown-relevant state of a `processor`: the capacity of the admission
semaphore (`cap(p.sema)` = configured concurrency), whether the `sync.Once`
guard has fired, whether the `abort` channel is closed, how many values were
sent on `done`, how many forced-quit `time.AfterFunc` timers are armed and
not yet fired (each will execute `close(p.quit)`; none is ever stopped), the
duration the most recent timer was armed with (ns), how many times
`close(p.quit)` has executed (a second close panics in Go), how many
semaphore tokens are held permanently by completed `terminate` drains, and
how many times `restore` ran. -/
structure ProcShutdownState where
  capacity : Nat
  onceUsed : Bool
  abortClosed : Bool
  doneSent : Nat
  timersArmed : Nat
  lastTimerNs : Option Nat
  quitCloseCount : Nat
  drainHold : Nat
  restores : Nat
deriving DecidableEq, Repr

/-- Shutdown state of a freshly constructed processor (`newProcessor`,
processor.go lines 66-91): fresh channels, unused once-guard, empty
semaphore of the configured capacity. -/
def initialProc (concurrency : Nat) : ProcShutdownState :=
  { capacity := concurrency
    onceUsed := false
    abortClosed := false
    doneSent := 0
    timersArmed := 0
    lastTimerNs := none
    quitCloseCount := 0
    drainHold := 0
    restores := 0 }

/-- Embedding of the hard-coded `const timeout = 8 * time.Second` in
`terminate` (processor.go line 111), in nanoseconds. -/
def shutdownTimerNs : Nat := 8 * 1000000000

/-- Embedding of `stop` (processor.go lines 95-104): under `p.once.Do`,
close `p.abort` and send one value on `p.done`; a second call is a no-op. -/
def stop (s : ProcShutdownState) : ProcShutdownState :=
  if s.onceUsed then s
  else { s with onceUsed := true, abortClosed := true, doneSent := s.doneSent + 1 }

/-- Embedding of `terminate` (processor.go lines 107-126): call `stop`,
arm a `time.AfterFunc` for `shutdownTimerNs` that will `close(p.quit)`,
invoke every registered cancellation, then acquire all `cap(p.sema)` tokens
and call `restore`. Worker-held tokens are always eventually released, so
the drain completes iff no tokens are held permanently by a previous
completed drain; the returned Bool is false when the acquisition loop
blocks forever (the effects performed before the block are kept). -/
def terminate (s : ProcShutdownState) : ProcShutdownState × Bool :=
  let s1 := stop s
  let s2 := { s1 with timersArmed := s1.timersArmed + 1,
                      lastTimerNs := some shutdownTimerNs }
  if s2.drainHold = 0 then
    ({ s2 with drainHold := s2.capacity, restores := s2.restores + 1 }, true)
  else
    (s2, false)

/-- One armed `time.AfterFunc` fires: it executes `close(p.quit)`. The Go
runtime panics when a closed channel is closed again, so a state with
`quitCloseCount ≥ 2` is a crashed process. -/
def fireTimer (s : ProcShutdownState) : ProcShutdownState :=
  if s.timersArmed = 0 then s
  else { s with timersArmed := s.timersArmed - 1,
                quitCloseCount := s.quitCloseCount + 1 }

/-- Counterexample for C6: starting from a fresh processor of concurrency 1,
a second `terminate` is not a no-op — it arms a second forced-quit timer
and then blocks forever in the drain loop (the first drain still holds all
tokens); once both timers fire, `close(p.quit)` has executed twice, which
panics in Go. -/
theorem terminate_twice_counterexample :
    (terminate (terminate (initialProc 1)).1).2 = false
    ∧ (terminate (terminate (initialProc 1)).1).1.timersArmed = 2
    ∧ (fireTimer (fireTimer (terminate (terminate (initialProc 1)).1).1)).quitCloseCount = 2 := by
  refine ⟨rfl, rfl, rfl⟩

/-- C6 (amended): the one-shot guard covers exactly the `stop` body: `stop`
is idempotent and, however many times `stop`/`terminate` run, the abort
channel is closed and the done signal sent exactly once; but `terminate`'s
remaining phases are unguarded — every call arms a fresh forced-quit timer
(each of which will close the quit channel, so two completed calls lead to a
double close), and a second call blocks forever in the drain phase. -/
theorem stop_idempotent_terminate_unguarded (s : ProcShutdownState) :
    stop (stop s) = stop s
    ∧ (stop s).onceUsed = true
    ∧ (s.onceUsed = false →
        (stop s).abortClosed = true ∧ (stop s).doneSent = s.doneSent + 1)
    ∧ (terminate s).1.doneSent = (stop s).doneSent
    ∧ (terminate (terminate s).1).1.doneSent = (stop s).doneSent
    ∧ (terminate (terminate s).1).1.timersArmed = s.timersArmed + 2
    ∧ (s.drainHold = 0 → 0 < s.capacity → (terminate (terminate s).1).2 = false) := by
  by_cases h : s.onceUsed
  · refine ⟨by simp [stop, h], by simp [stop, h], by simp [h], ?_⟩
    by_cases hd : s.drainHold = 0
    · refine ⟨by simp [terminate, stop, h, hd], ?_, ?_, ?_⟩
      · by_cases hc : s.capacity = 0 <;>
          simp [terminate, stop, h, hd, hc]
      · by_cases hc : s.capacity = 0 <;>
          simp [terminate, stop, h, hd, hc]
      · intro _ hc
        simp [terminate, stop, h, hd, Nat.pos_iff_ne_zero.mp hc]
    · refine ⟨by simp [terminate, stop, h, hd], by simp [terminate, stop, h, hd],
        by simp [terminate, stop, h, hd], ?_⟩
      intro hd0
      exact absurd hd0 hd
  · refine ⟨by simp [stop, h], by simp [stop, h], by simp [stop, h], ?_⟩
    by_cases hd : s.drainHold = 0
    · refine ⟨by simp [terminate, stop, h, hd], ?_, ?_, ?_⟩
      · by_cases hc : s.capacity = 0 <;>
          simp [terminate, stop, h, hd, hc]
      · by_cases hc : s.capacity = 0 <;>
          simp [terminate, stop, h, hd, hc]
      · intro _ hc
        simp [terminate, stop, h, hd, Nat.pos_iff_ne_zero.mp hc]
    · refine ⟨by simp [terminate, stop, h, hd], by simp [terminate, stop, h, hd],
        by simp [terminate, stop, h, hd], ?_⟩
      intro hd0
      exact absurd hd0 hd

/-- Witness for C6 (amended) at a fresh processor of concurrency 2. -/
theorem stop_idempotent_terminate_unguarded_witness :
    stop (stop (initialProc 2)) = stop (initialProc 2)
    ∧ (terminate (terminate (initialProc 2)).1).1.timersArmed = (initialProc 2).timersArmed + 2
    ∧ (terminate (terminate (initialProc 2)).1).2 = false := by
  refine ⟨(stop_idempotent_terminate_unguarded (initialProc 2)).1,
    (stop_idempotent_terminate_unguarded (initialProc 2)).2.2.2.2.2.1,
    (stop_idempotent_terminate_unguarded (initialProc 2)).2.2.2.2.2.2 rfl (by decide)⟩

/-- Modelled from the spec: the `ShutdownTimeout` configuration option
(§6, "duration (default 8s) — graceful drain window"), which does not exist
in the code under src/ — `terminate` hard-codes its timer duration. -/
def shutdownTimeoutSpec (configured : Option Nat) : Nat :=
  configured.getD (8 * 1000000000)

/-- Counterexample for C7: with a configured ShutdownTimeout of 5 s the spec
prescribes a 5 s drain window, but `terminate` always arms its forced-quit
timer with the hard-coded 8 s constant (the code has no ShutdownTimeout
option at all; its comment marks the timeout as an IDEA for customization). -/
theorem shutdownTimer_counterexample :
    (terminate (initialProc 1)).1.lastTimerNs = some (8 * 1000000000)
    ∧ shutdownTimeoutSpec (some (5 * 1000000000)) = 5 * 1000000000
    ∧ (5 * 1000000000 : Nat) ≠ 8 * 1000000000 := by
  refine ⟨rfl, rfl, by norm_num⟩

/-- C7 (amended): whatever the processor state, `terminate` arms its
forced-quit timer with the hard-coded constant `8 * time.Second`; the drain
window is always 8 seconds and is not configurable in this version. -/
theorem terminate_timer_hardcoded_8s (s : ProcShutdownState) :
    (terminate s).1.lastTimerNs = some shutdownTimerNs
    ∧ shutdownTimerNs = 8 * 1000000000 := by
  constructor
  · simp only [terminate, stop]
    split <;> split <;> rfl
  · rfl

/-- Embedding of `strings.ToLower` restricted to ASCII (the only case
exercised here): uppercase ASCII letters are shifted into lowercase, all
other characters are unchanged. -/
def lowerChar (c : Char) : Char :=
  if 'A' ≤ c ∧ c ≤ 'Z' then Char.ofNat (c.toNat + 32) else c

/-- ASCII lowercasing of a string, the embedding of `strings.ToLower` as
used by `Queue`, mapping `lowerChar` over the characters. -/
def toLowerGo (s : String) : String :=
  String.mk (s.data.map lowerChar)

/-- Embedding of the internal option representations of the client
(part_000 lines 36-41): a heterogeneous `Option` value discriminated at
runtime; values of unrecognized dynamic type are covered by `unknown`. -/
inductive ClientOption
  | retryOption (n : Int)
  | queueOption (name : String)
  | timeoutOption (d : Int)
  | deadlineOption (t : Int)
  | unknown
deriving DecidableEq, Repr

/-- Embedding of `MaxRetry` (part_000 lines 47-52): a negative retry count
is treated as zero. -/
def MaxRetry (n : Int) : ClientOption :=
  if n < 0 then ClientOption.retryOption 0 else ClientOption.retryOption n

/-- Embedding of `Queue` (part_000 lines 57-59): the queue name is
lowercased. -/
def Queue (name : String) : ClientOption :=
  ClientOption.queueOption (toLowerGo name)

/-- Embedding of `Timeout` (part_000 lines 64-66). -/
def Timeout (d : Int) : ClientOption :=
  ClientOption.timeoutOption d

/-- Embedding of `Deadline` (part_000 lines 69-71), with the time carried
as nanoseconds. -/
def Deadline (t : Int) : ClientOption :=
  ClientOption.deadlineOption t

/-- Embedding of the composed `option` struct (part_000 lines 73-78). -/
structure OptionCfg where
  retry : Int
  queue : String
  timeout : Int
  deadline : Int
deriving DecidableEq, Repr

/-- Embedding of `defaultMaxRetry` (part_000 line 106). -/
def defaultMaxRetry : Int := 25

/-- Embedding of `base.DefaultQueueName`. Modelled from the spec: the
internal/base package is outside src/; the spec's end-to-end scenarios
(§8) use the queue named "default" as the default queue. -/
def DefaultQueueName : String := "default"

/-- One step of the type-switch in `composeOptions` (part_000 lines
87-100): each recognized option overwrites its field, unknown options are
ignored. -/
def applyOption (res : OptionCfg) (opt : ClientOption) : OptionCfg :=
  match opt with
  | ClientOption.retryOption n => { res with retry := n }
  | ClientOption.queueOption name => { res with queue := name }
  | ClientOption.timeoutOption d => { res with timeout := d }
  | ClientOption.deadlineOption t => { res with deadline := t }
  | ClientOption.unknown => res

/-- Embedding of `composeOptions` (part_000 lines 80-102): start from the
defaults and fold the option list left to right. -/
def composeOptions (opts : List ClientOption) : OptionCfg :=
  opts.foldl applyOption
    { retry := defaultMaxRetry
      queue := DefaultQueueName
      timeout := 0
      deadline := 0 }

/-- C9: per-task options are normalized at composition — whatever options
precede it, a final `MaxRetry n` composes to retry count `max n 0` (negative
clamped to zero) and a final `Queue name` composes to the lowercased queue
name; conflicting options of the same kind are resolved in favor of the
last one because composition folds left to right, overwriting fields. -/
theorem composeOptions_normalized :
    ∀ (opts : List ClientOption) (n : Int) (name : String),
      (composeOptions (opts ++ [MaxRetry n])).retry = max n 0
      ∧ (composeOptions (opts ++ [Queue name])).queue = toLowerGo name := by
  intro opts n name
  constructor
  · rw [composeOptions, List.foldl_append]
    rw [show List.foldl applyOption
      (List.foldl applyOption
        { retry := defaultMaxRetry, queue := DefaultQueueName,
          timeout := 0, deadline := 0 } opts) [MaxRetry n]
      = applyOption (composeOptions opts) (MaxRetry n) from rfl]
    rw [MaxRetry]
    by_cases h : n < 0
    · rw [if_pos h]
      show (0 : Int) = max n 0
      rw [max_eq_right (le_of_lt h)]
    · rw [if_neg h]
      show n = max n 0
      rw [max_eq_left (le_of_not_lt h)]
  · rw [composeOptions, List.foldl_append]
    rfl

/-- C9 at concrete conflicting inputs: the later `MaxRetry`/`Queue` option
wins over an earlier one, `MaxRetry (-3)` clamps to 0, and `Queue "HIGH"`
lowercases to "high" (an evaluation check of the claim's examples; not
required as a witness since the theorem has no hypotheses). -/
theorem composeOptions_normalized_examples :
    (composeOptions [MaxRetry 10, Queue "Low", MaxRetry (-3), Queue "HIGH"]).retry = 0
    ∧ (composeOptions [MaxRetry 10, Queue "Low", MaxRetry (-3), Queue "HIGH"]).queue
        = "high" := by
  refine ⟨rfl, by decide⟩

end Asynq
